import Mathlib

/-!
Shallow embedding of the core of a small path tracer (vector math, rays,
intervals, sphere intersection, an aggregate hittable list, materials, the
recursive integrator and the color sink), together with theorems checking the
natural-language specification against it.

Doubles are modelled as real numbers; interval bounds are extended reals so
that the `(0.001, +infinity)` bound used by the integrator is representable.
Out-parameter style C++ functions (`hit(ray, interval, hit_record&) -> bool`)
become functions returning `Bool × hit_record`, threading the record
explicitly.  Randomness (unit-vector draws, uniform doubles) is passed in as
an explicit argument.
-/

set_option maxHeartbeats 1000000

/-- 3-component real vector, as in `vec3.hpp`. -/
structure vec3 where
  x : ℝ
  y : ℝ
  z : ℝ

instance : Add vec3 := ⟨fun u v => ⟨u.x + v.x, u.y + v.y, u.z + v.z⟩⟩

instance : Sub vec3 := ⟨fun u v => ⟨u.x - v.x, u.y - v.y, u.z - v.z⟩⟩

instance : Neg vec3 := ⟨fun v => ⟨-v.x, -v.y, -v.z⟩⟩

/-- Component-wise product (the C++ `operator*(vec3, vec3)`). -/
instance : Mul vec3 := ⟨fun u v => ⟨u.x * v.x, u.y * v.y, u.z * v.z⟩⟩

/-- Scalar multiplication `t * v`. -/
instance : SMul ℝ vec3 := ⟨fun t v => ⟨t * v.x, t * v.y, t * v.z⟩⟩

/-- Scalar division `v / t = (1/t) * v`, exactly as the C++ operator. -/
noncomputable instance : HDiv vec3 ℝ vec3 := ⟨fun v t => (1 / t) • v⟩

namespace vec3

/-- Dot product. -/
def dot (u v : vec3) : ℝ := u.x * v.x + u.y * v.y + u.z * v.z

/-- Squared length. -/
def length_squared (v : vec3) : ℝ := v.x * v.x + v.y * v.y + v.z * v.z

/-- Euclidean length. -/
noncomputable def length (v : vec3) : ℝ := Real.sqrt v.length_squared

/-- `unit_vector(v) = v / length(v)`. -/
noncomputable def unit_vector (v : vec3) : vec3 := v / v.length

/-- `reflect(v, n) = v - 2 (v·n) n`. -/
def reflect (v n : vec3) : vec3 := v - (2 * dot v n) • n

/-- Snell refraction from `vec3.hpp`. -/
noncomputable def refract (uv n : vec3) (etai_over_etat : ℝ) : vec3 :=
  let cos_theta := min (dot (-uv) n) 1
  let r_out_perp := etai_over_etat • (uv + cos_theta • n)
  let r_out_parallel := (-(Real.sqrt |1 - r_out_perp.length_squared|)) • n
  r_out_perp + r_out_parallel

end vec3

/-- A ray: origin plus direction, as in `ray.hpp`. -/
structure ray where
  origin : vec3
  direction : vec3

/-- `ray::at(t) = origin + t * direction`. -/
def ray.at (r : ray) (t : ℝ) : vec3 := r.origin + t • r.direction

/-- Closed range of (extended) reals, as in `interval.hpp`; extended bounds
represent the C++ `infinity` endpoints. -/
structure interval where
  min : EReal
  max : EReal

namespace interval

/-- `surrounds(x)`: strictly inside the interval. -/
def surrounds (I : interval) (x : ℝ) : Prop :=
  I.min < (x : EReal) ∧ (x : EReal) < I.max

noncomputable instance (I : interval) (x : ℝ) : Decidable (I.surrounds x) := by
  unfold interval.surrounds; infer_instance

/-- `contains(x)`: inside the interval, bounds included. -/
def contains (I : interval) (x : ℝ) : Prop :=
  I.min ≤ (x : EReal) ∧ (x : EReal) ≤ I.max

/-- `clamp(x)`: saturate `x` into the interval. -/
noncomputable def clamp (I : interval) (x : ℝ) : ℝ :=
  if (x : EReal) < I.min then I.min.toReal
  else if I.max < (x : EReal) then I.max.toReal
  else x

end interval

/-- The record a successful intersection fills in, as in `hittable.hpp`.
The C++ `shared_ptr<material>` is modelled as an opaque identifier. -/
structure hit_record where
  p : vec3
  normal : vec3
  mat : ℕ
  t : ℝ
  front_face : Bool

/-- The zero-initialised record `hit_record{}`. -/
instance : Inhabited hit_record := ⟨⟨⟨0, 0, 0⟩, ⟨0, 0, 0⟩, 0, 0, false⟩⟩

/-- `hit_record::set_face_normal`: orient the outward normal against the ray
and remember which side was struck. -/
noncomputable def hit_record.set_face_normal (rec : hit_record) (r : ray)
    (outward_normal : vec3) : hit_record :=
  if vec3.dot r.direction outward_normal < 0 then
    { rec with front_face := true, normal := outward_normal }
  else
    { rec with front_face := false, normal := -outward_normal }

/-- A sphere: center, radius and material, as in `sphere.hpp`. -/
structure sphere where
  center : vec3
  radius : ℝ
  mat : ℕ

/-- The sphere constructor clamps the radius to be nonnegative. -/
def sphere.make (center : vec3) (radius : ℝ) (mat : ℕ) : sphere :=
  ⟨center, max 0 radius, mat⟩

/-- The writes `sphere::hit` performs into the record once a root is
accepted: `t`, hit point, oriented normal and material. -/
noncomputable def sphere.write (s : sphere) (rec : hit_record) (r : ray)
    (root : ℝ) : hit_record :=
  let rec₁ := { rec with t := root, p := r.at root }
  let outward_normal := (rec₁.p - s.center) / s.radius
  let rec₂ := rec₁.set_face_normal r outward_normal
  { rec₂ with mat := s.mat }

/-- `sphere::hit`: quadratic intersection test; returns the hit flag together
with the (possibly updated) record. -/
noncomputable def sphere.hit (s : sphere) (r : ray) (ray_t : interval)
    (rec : hit_record) : Bool × hit_record :=
  let oc := s.center - r.origin
  let a := r.direction.length_squared
  let h := vec3.dot r.direction oc
  let c := oc.length_squared - s.radius * s.radius
  let discriminant := h * h - a * c
  if discriminant < 0 then (false, rec)
  else
    let sqrtd := Real.sqrt discriminant
    let root₁ := (h - sqrtd) / a
    let root₂ := (h + sqrtd) / a
    if ray_t.surrounds root₁ then (true, s.write rec r root₁)
    else if ray_t.surrounds root₂ then (true, s.write rec r root₂)
    else (false, rec)

/-- The scan loop of `hittable_list::hit`: thread the temporary record, the
hit flag, the shrinking `closest_so_far` bound and the caller's record through
the member list.  Members are the repository's concrete primitive, spheres. -/
noncomputable def hittable_list.loop (r : ray) (lo : EReal) :
    List sphere → hit_record → Bool → EReal → hit_record → Bool × hit_record
  | [], _, hit_anything, _, rec => (hit_anything, rec)
  | o :: os, temp_rec, hit_anything, closest_so_far, rec =>
      let res := o.hit r ⟨lo, closest_so_far⟩ temp_rec
      if res.1 then
        hittable_list.loop r lo os res.2 true ((res.2.t : ℝ) : EReal) res.2
      else
        hittable_list.loop r lo os res.2 hit_anything closest_so_far rec

/-- `hittable_list::hit`: linear scan keeping the closest qualifying hit. -/
noncomputable def hittable_list.hit (objects : List sphere) (r : ray)
    (ray_t : interval) (rec : hit_record) : Bool × hit_record :=
  hittable_list.loop r ray_t.min objects default false ray_t.max rec

/-- Metal material: albedo plus fuzz, as in `material.hpp`. -/
structure metal where
  albedo : vec3
  fuzz : ℝ

/-- The metal constructor: `fuzz(fuzz < 1 ? fuzz : 1)`. -/
noncomputable def metal.make (albedo : vec3) (fuzz : ℝ) : metal :=
  ⟨albedo, if fuzz < 1 then fuzz else 1⟩

/-- `metal::scatter`.  The unit vector drawn by `random_unit_vector()` is
passed in as `rand_unit`; the result is (hit flag, attenuation, scattered). -/
noncomputable def metal.scatter (m : metal) (r_in : ray) (rec : hit_record)
    (rand_unit : vec3) : Bool × vec3 × ray :=
  let reflected := vec3.reflect r_in.direction rec.normal
  let adjusted := vec3.unit_vector reflected + m.fuzz • rand_unit
  let scattered : ray := ⟨rec.p, adjusted⟩
  let attenuation := m.albedo
  (if 0 < vec3.dot scattered.direction rec.normal then true else false,
   attenuation, scattered)

/-- Dielectric material: refractive index, as in `material.hpp`. -/
structure dielectric where
  refraction_index : ℝ

/-- Schlick's reflectance approximation. -/
noncomputable def dielectric.reflectance (cosine refraction_index : ℝ) : ℝ :=
  let r0 := (1 - refraction_index) / (1 + refraction_index)
  let r0sq := r0 * r0
  r0sq + (1 - r0sq) * (1 - cosine) ^ 5

/-- `dielectric::scatter`.  The uniform draw of `random_double()` is passed in
as `rand`; the result is (hit flag, attenuation, scattered). -/
noncomputable def dielectric.scatter (d : dielectric) (r_in : ray)
    (rec : hit_record) (rand : ℝ) : Bool × vec3 × ray :=
  let attenuation : vec3 := ⟨1, 1, 1⟩
  let ri := if rec.front_face then 1 / d.refraction_index else d.refraction_index
  let unit_direction := vec3.unit_vector r_in.direction
  let cos_theta := min (vec3.dot (-unit_direction) rec.normal) 1
  let sin_theta := Real.sqrt (1 - cos_theta * cos_theta)
  let cannot_refract := 1 < ri * sin_theta
  let direction :=
    if cannot_refract ∨ rand < dielectric.reflectance cos_theta ri then
      vec3.reflect unit_direction rec.normal
    else
      vec3.refract unit_direction rec.normal ri
  (true, attenuation, ⟨rec.p, direction⟩)

/-- `camera::trace_ray`, the recursive integrator.  The scene's `hit` and the
per-material `scatter` dispatch (material lookup plus its random draws) are
passed in as functions; `depth` is the remaining bounce budget. -/
noncomputable def camera.trace_ray
    (scene_hit : ray → interval → hit_record → Bool × hit_record)
    (mat_scatter : ray → hit_record → Bool × vec3 × ray) :
    ray → ℕ → vec3
  | _, 0 => ⟨0, 0, 0⟩
  | r, depth + 1 =>
      let res := scene_hit r ⟨((0.001 : ℝ) : EReal), ⊤⟩ default
      if res.1 then
        let sc := mat_scatter r res.2
        if sc.1 then sc.2.1 * camera.trace_ray scene_hit mat_scatter sc.2.2 depth
        else ⟨0, 0, 0⟩
      else
        let unit_direction := vec3.unit_vector r.direction
        let t := 0.5 * (unit_direction.y + 1.0)
        (1.0 - t) • (⟨1.0, 1.0, 1.0⟩ : vec3) + t • (⟨0.5, 0.7, 1.0⟩ : vec3)

/-- `linear_to_gamma`: gamma-2 correction with nonpositive inputs sent to 0. -/
noncomputable def linear_to_gamma (linear_component : ℝ) : ℝ :=
  if 0 < linear_component then Real.sqrt linear_component else 0

/-- The clamping interval `intensity(0.000, 0.999)` of `write_color`. -/
def intensity : interval := ⟨((0.000 : ℝ) : EReal), ((0.999 : ℝ) : EReal)⟩

/-- The C++ `int(...)` cast from a double: truncation toward zero. -/
noncomputable def int_trunc (x : ℝ) : ℤ := if 0 ≤ x then ⌊x⌋ else -⌊-x⌋

/-- One channel of `write_color`: gamma-correct, clamp and quantize. -/
noncomputable def write_color_byte (channel : ℝ) : ℤ :=
  int_trunc (256 * intensity.clamp (linear_to_gamma channel))

/-- `write_color`: the three integers emitted for a pixel color. -/
noncomputable def write_color (pixel_color : vec3) : ℤ × ℤ × ℤ :=
  (write_color_byte pixel_color.x,
   write_color_byte pixel_color.y,
   write_color_byte pixel_color.z)

/-! ### Basic vector lemmas -/

@[simp] lemma vec3.add_def (u v : vec3) :
    u + v = ⟨u.x + v.x, u.y + v.y, u.z + v.z⟩ := rfl

@[simp] lemma vec3.sub_def (u v : vec3) :
    u - v = ⟨u.x - v.x, u.y - v.y, u.z - v.z⟩ := rfl

@[simp] lemma vec3.neg_def (v : vec3) : -v = ⟨-v.x, -v.y, -v.z⟩ := rfl

@[simp] lemma vec3.mul_def (u v : vec3) :
    u * v = ⟨u.x * v.x, u.y * v.y, u.z * v.z⟩ := rfl

@[simp] lemma vec3.smul_def (t : ℝ) (v : vec3) :
    t • v = ⟨t * v.x, t * v.y, t * v.z⟩ := rfl

@[simp] lemma vec3.div_def (v : vec3) (t : ℝ) : v / t = (1 / t) • v := rfl

lemma vec3.dot_comm (u v : vec3) : vec3.dot u v = vec3.dot v u := by
  unfold vec3.dot; ring

lemma vec3.dot_neg_left (u v : vec3) : vec3.dot (-u) v = -(vec3.dot u v) := by
  simp only [vec3.neg_def, vec3.dot]; ring

lemma vec3.length_squared_nonneg (v : vec3) : 0 ≤ v.length_squared := by
  unfold vec3.length_squared
  nlinarith [mul_self_nonneg v.x, mul_self_nonneg v.y, mul_self_nonneg v.z]

lemma vec3.length_squared_pos {v : vec3} (hv : v ≠ ⟨0, 0, 0⟩) :
    0 < v.length_squared := by
  rcases lt_or_eq_of_le v.length_squared_nonneg with h | h
  · exact h
  · exfalso
    rcases v with ⟨a, b, c⟩
    have h' : a * a + b * b + c * c = 0 := by
      simpa [vec3.length_squared] using h.symm
    have ha : a = 0 := by nlinarith [mul_self_nonneg a, mul_self_nonneg b, mul_self_nonneg c]
    have hb : b = 0 := by nlinarith [mul_self_nonneg a, mul_self_nonneg b, mul_self_nonneg c]
    have hc : c = 0 := by nlinarith [mul_self_nonneg a, mul_self_nonneg b, mul_self_nonneg c]
    exact hv (by simp [ha, hb, hc])

/-! ### `set_face_normal` lemmas -/

lemma set_face_normal_dot (rec : hit_record) (r : ray) (outward_normal : vec3) :
    vec3.dot (rec.set_face_normal r outward_normal).normal r.direction ≤ 0 := by
  unfold hit_record.set_face_normal
  split_ifs with h
  · show vec3.dot outward_normal r.direction ≤ 0
    rw [vec3.dot_comm]
    linarith
  · push_neg at h
    show vec3.dot (-outward_normal) r.direction ≤ 0
    rw [vec3.dot_neg_left, vec3.dot_comm]
    linarith

lemma set_face_normal_front (rec : hit_record) (r : ray) (outward_normal : vec3) :
    (rec.set_face_normal r outward_normal).front_face = true ↔
      vec3.dot r.direction outward_normal < 0 := by
  unfold hit_record.set_face_normal
  split_ifs with h <;> simp [h]

lemma set_face_normal_t (rec : hit_record) (r : ray) (outward_normal : vec3) :
    (rec.set_face_normal r outward_normal).t = rec.t := by
  unfold hit_record.set_face_normal
  split_ifs <;> rfl

lemma set_face_normal_p (rec : hit_record) (r : ray) (outward_normal : vec3) :
    (rec.set_face_normal r outward_normal).p = rec.p := by
  unfold hit_record.set_face_normal
  split_ifs <;> rfl

/-! ### `sphere.write` lemmas -/

lemma sphere.write_t (s : sphere) (rec : hit_record) (r : ray) (root : ℝ) :
    (s.write rec r root).t = root := by
  unfold sphere.write
  simp [set_face_normal_t]

lemma sphere.write_normal_dot (s : sphere) (rec : hit_record) (r : ray) (root : ℝ) :
    vec3.dot (s.write rec r root).normal r.direction ≤ 0 := by
  unfold sphere.write
  simpa using set_face_normal_dot _ r _

/-! ### Sphere intersection characterization -/

/-- The discriminant `h*h - a*c` computed by `sphere::hit`. -/
noncomputable def sphere.disc (s : sphere) (r : ray) : ℝ :=
  vec3.dot r.direction (s.center - r.origin) * vec3.dot r.direction (s.center - r.origin)
    - r.direction.length_squared
      * ((s.center - r.origin).length_squared - s.radius * s.radius)

/-- The smaller candidate root `(h - sqrt(disc)) / a`. -/
noncomputable def sphere.root₁ (s : sphere) (r : ray) : ℝ :=
  (vec3.dot r.direction (s.center - r.origin) - Real.sqrt (s.disc r))
    / r.direction.length_squared

/-- The larger candidate root `(h + sqrt(disc)) / a`. -/
noncomputable def sphere.root₂ (s : sphere) (r : ray) : ℝ :=
  (vec3.dot r.direction (s.center - r.origin) + Real.sqrt (s.disc r))
    / r.direction.length_squared

/-- The root-selection logic of `sphere::hit`, separated from the record
writes. -/
noncomputable def sphere.hitT (s : sphere) (r : ray) (ray_t : interval) :
    Option ℝ :=
  if s.disc r < 0 then none
  else if ray_t.surrounds (s.root₁ r) then some (s.root₁ r)
  else if ray_t.surrounds (s.root₂ r) then some (s.root₂ r)
  else none

/-- `sphere.hit` factors through the root selection and the record writes. -/
lemma sphere.hit_eq_hitT (s : sphere) (r : ray) (ray_t : interval)
    (rec : hit_record) :
    s.hit r ray_t rec =
      match s.hitT r ray_t with
      | none => (false, rec)
      | some t => (true, s.write rec r t) := by
  simp only [sphere.hit, sphere.hitT, sphere.disc, sphere.root₁, sphere.root₂]
  split_ifs <;> rfl

lemma sphere.hitT_some_surrounds {s : sphere} {r : ray} {ray_t : interval}
    {t : ℝ} (h : s.hitT r ray_t = some t) : ray_t.surrounds t := by
  unfold sphere.hitT at h
  split_ifs at h with h1 h2 h3 <;> simp_all

lemma sphere.hitT_some_cases {s : sphere} {r : ray} {ray_t : interval}
    {t : ℝ} (h : s.hitT r ray_t = some t) :
    0 ≤ s.disc r ∧
      (t = s.root₁ r ∨ (t = s.root₂ r ∧ ¬ ray_t.surrounds (s.root₁ r))) := by
  unfold sphere.hitT at h
  split_ifs at h with h1 h2 h3 <;> simp_all

lemma sphere.hitT_none_iff (s : sphere) (r : ray) (ray_t : interval) :
    s.hitT r ray_t = none ↔
      s.disc r < 0 ∨
        (¬ ray_t.surrounds (s.root₁ r) ∧ ¬ ray_t.surrounds (s.root₂ r)) := by
  unfold sphere.hitT
  split_ifs with h1 h2 h3 <;> simp_all

/-- The squared distance from a ray point to the sphere center, expanded as a
quadratic in `t`. -/
lemma ray.at_dist_quadratic (s : sphere) (r : ray) (t : ℝ) :
    (r.at t - s.center).length_squared =
      r.direction.length_squared * t * t
        - 2 * vec3.dot r.direction (s.center - r.origin) * t
        + (s.center - r.origin).length_squared := by
  rcases r with ⟨⟨ox, oy, oz⟩, ⟨dx, dy, dz⟩⟩
  rcases s with ⟨⟨cx, cy, cz⟩, rad, m⟩
  simp [ray.at, vec3.length_squared, vec3.dot]
  ring

/-- Root characterization of a real quadratic, given a square root of its
discriminant. -/
lemma quadratic_root_iff (a h c sq t : ℝ) (ha : a ≠ 0)
    (hs : sq * sq = h * h - a * c) :
    a * t * t - 2 * h * t + c = 0 ↔ t = (h - sq) / a ∨ t = (h + sq) / a := by
  constructor
  · intro hq
    have hsq2 : (a * t - h - sq) * (a * t - h + sq) = 0 := by
      linear_combination a * hq - hs
    rcases mul_eq_zero.1 hsq2 with h0 | h0
    · right
      rw [eq_div_iff ha]
      linear_combination h0
    · left
      rw [eq_div_iff ha]
      linear_combination h0
  · intro hcase
    rcases hcase with h0 | h0
    · have ht : a * t = h - sq := by
        rw [h0, mul_div_cancel₀ _ ha]
      have key : a * (a * t * t - 2 * h * t + c) = 0 := by
        linear_combination (a * t - h - sq) * ht + hs
      rcases mul_eq_zero.1 key with hbad | hgood
      · exact absurd hbad ha
      · exact hgood
    · have ht : a * t = h + sq := by
        rw [h0, mul_div_cancel₀ _ ha]
      have key : a * (a * t * t - 2 * h * t + c) = 0 := by
        linear_combination (a * t - h + sq) * ht + hs
      rcases mul_eq_zero.1 key with hbad | hgood
      · exact absurd hbad ha
      · exact hgood

/-- With a nonzero direction and nonnegative discriminant, the ray meets the
sphere at `t` exactly when `t` is one of the two quadratic roots. -/
lemma sphere.meets_iff_root (s : sphere) (r : ray)
    (hdir : r.direction ≠ ⟨0, 0, 0⟩) (hd : 0 ≤ s.disc r) (t : ℝ) :
    (r.at t - s.center).length_squared = s.radius * s.radius ↔
      t = s.root₁ r ∨ t = s.root₂ r := by
  have ha : 0 < r.direction.length_squared := vec3.length_squared_pos hdir
  have hs : Real.sqrt (s.disc r) * Real.sqrt (s.disc r) =
      vec3.dot r.direction (s.center - r.origin)
          * vec3.dot r.direction (s.center - r.origin)
        - r.direction.length_squared
          * ((s.center - r.origin).length_squared - s.radius * s.radius) :=
    Real.mul_self_sqrt hd
  have hquad := quadratic_root_iff r.direction.length_squared
      (vec3.dot r.direction (s.center - r.origin))
      ((s.center - r.origin).length_squared - s.radius * s.radius)
      (Real.sqrt (s.disc r)) t (ne_of_gt ha) hs
  have hexp := ray.at_dist_quadratic s r t
  unfold sphere.root₁ sphere.root₂
  rw [← hquad, hexp]
  constructor <;> intro hq <;> linarith

/-- The first candidate root is the smaller one. -/
lemma sphere.root₁_le_root₂ (s : sphere) (r : ray)
    (hdir : r.direction ≠ ⟨0, 0, 0⟩) : s.root₁ r ≤ s.root₂ r := by
  have ha : 0 < r.direction.length_squared := vec3.length_squared_pos hdir
  unfold sphere.root₁ sphere.root₂
  rw [div_le_div_iff₀ ha ha]
  nlinarith [Real.sqrt_nonneg (s.disc r)]

/-- Narrowing the upper interval bound: the narrowed query succeeds with `t`
exactly when the wide query succeeds with the same `t` and `t` is below the
narrowed bound. -/
lemma sphere.hitT_narrow (s : sphere) (r : ray)
    (hdir : r.direction ≠ ⟨0, 0, 0⟩) (lo hi hi' : EReal) (hle : hi' ≤ hi)
    (t : ℝ) :
    s.hitT r ⟨lo, hi'⟩ = some t ↔
      (s.hitT r ⟨lo, hi⟩ = some t ∧ ((t : ℝ) : EReal) < hi') := by
  have hr12 : s.root₁ r ≤ s.root₂ r := s.root₁_le_root₂ r hdir
  have hr12e : ((s.root₁ r : ℝ) : EReal) ≤ ((s.root₂ r : ℝ) : EReal) :=
    EReal.coe_le_coe_iff.2 hr12
  unfold sphere.hitT interval.surrounds
  dsimp only
  by_cases hd : s.disc r < 0
  · simp [hd]
  · rw [if_neg hd, if_neg hd]
    constructor
    · intro hL
      by_cases hA' : lo < ((s.root₁ r : ℝ) : EReal) ∧ ((s.root₁ r : ℝ) : EReal) < hi'
      · rw [if_pos hA'] at hL
        have ht : t = s.root₁ r := (Option.some.inj hL).symm
        subst ht
        refine ⟨?_, hA'.2⟩
        rw [if_pos ⟨hA'.1, lt_of_lt_of_le hA'.2 hle⟩]
      · rw [if_neg hA'] at hL
        by_cases hB' : lo < ((s.root₂ r : ℝ) : EReal) ∧ ((s.root₂ r : ℝ) : EReal) < hi'
        · rw [if_pos hB'] at hL
          have ht : t = s.root₂ r := (Option.some.inj hL).symm
          subst ht
          refine ⟨?_, hB'.2⟩
          have hnr1 : ¬ ((s.root₁ r : ℝ) : EReal) < hi' → False := by
            intro hcon
            push_neg at hcon
            exact absurd hB'.2 (not_lt.2 (le_trans hcon hr12e))
          have hlo1 : ¬ lo < ((s.root₁ r : ℝ) : EReal) := by
            intro hcon
            rcases not_and_or.1 hA' with hc | hc
            · exact hc hcon
            · exact hnr1 hc
          rw [if_neg (by intro hcon; exact hlo1 hcon.1),
            if_pos ⟨hB'.1, lt_of_lt_of_le hB'.2 hle⟩]
        · rw [if_neg hB'] at hL
          exact absurd hL (by simp)
    · rintro ⟨hR, hlt⟩
      by_cases hA : lo < ((s.root₁ r : ℝ) : EReal) ∧ ((s.root₁ r : ℝ) : EReal) < hi
      · rw [if_pos hA] at hR
        have ht : t = s.root₁ r := (Option.some.inj hR).symm
        subst ht
        rw [if_pos ⟨hA.1, hlt⟩]
      · rw [if_neg hA] at hR
        by_cases hB : lo < ((s.root₂ r : ℝ) : EReal) ∧ ((s.root₂ r : ℝ) : EReal) < hi
        · rw [if_pos hB] at hR
          have ht : t = s.root₂ r := (Option.some.inj hR).symm
          subst ht
          have hnA' : ¬ (lo < ((s.root₁ r : ℝ) : EReal) ∧ ((s.root₁ r : ℝ) : EReal) < hi') := by
            intro hcon
            exact hA ⟨hcon.1, lt_of_lt_of_le hcon.2 hle⟩
          rw [if_neg hnA', if_pos ⟨hB.1, hlt⟩]
        · rw [if_neg hB] at hR
          exact absurd hR (by simp)

/-- `sphere::hit` overwrites every field of the record, so the record handed
in is irrelevant to the record written out. -/
lemma sphere.write_ignores (s : sphere) (rec rec' : hit_record) (r : ray)
    (root : ℝ) :
    s.write rec r root = s.write rec' r root := by
  unfold sphere.write hit_record.set_face_normal
  dsimp only
  split_ifs <;> rfl

lemma sphere.write_mat (s : sphere) (rec : hit_record) (r : ray) (root : ℝ) :
    (s.write rec r root).mat = s.mat := by
  unfold sphere.write hit_record.set_face_normal
  dsimp only

/-- Functional form of the `hittable_list::hit` scan: the record (if any)
held after scanning the members against a shrinking upper bound. -/
noncomputable def hittable_list.loopT (r : ray) (lo : EReal) :
    List sphere → EReal → Option hit_record
  | [], _ => none
  | o :: os, closest =>
      match o.hitT r ⟨lo, closest⟩ with
      | none => hittable_list.loopT r lo os closest
      | some t =>
          some ((hittable_list.loopT r lo os ((t : ℝ) : EReal)).getD
            (o.write default r t))

/-- The imperative scan agrees with its functional form. -/
lemma hittable_list.loop_eq_loopT (r : ray) (lo : EReal) (os : List sphere) :
    ∀ (temp : hit_record) (hA : Bool) (closest : EReal) (rec : hit_record),
    hittable_list.loop r lo os temp hA closest rec =
      match hittable_list.loopT r lo os closest with
      | none => (hA, rec)
      | some rc => (true, rc) := by
  induction os with
  | nil => intro temp hA closest rec; rfl
  | cons o os ih =>
      intro temp hA closest rec
      rw [hittable_list.loop, hittable_list.loopT, sphere.hit_eq_hitT]
      cases hot : o.hitT r ⟨lo, closest⟩ with
      | none =>
          dsimp only
          rw [if_neg Bool.false_ne_true, ih]
      | some t =>
          dsimp only
          rw [if_pos rfl, sphere.write_t, ih]
          cases hrec : hittable_list.loopT r lo os ((t : ℝ) : EReal) with
          | none =>
              dsimp only [Option.getD]
              rw [sphere.write_ignores o temp default r t]
          | some rc => rfl

/-- The scan yields nothing exactly when every member misses. -/
lemma hittable_list.loopT_none_iff (r : ray) (lo : EReal) :
    ∀ (os : List sphere) (closest : EReal),
    hittable_list.loopT r lo os closest = none ↔
      ∀ o ∈ os, o.hitT r ⟨lo, closest⟩ = none := by
  intro os
  induction os with
  | nil => intro closest; simp [hittable_list.loopT]
  | cons o os ih =>
      intro closest
      rw [hittable_list.loopT]
      cases hot : o.hitT r ⟨lo, closest⟩ with
      | none =>
          dsimp only
          rw [ih]
          constructor
          · intro h o' ho'
            rcases List.mem_cons.1 ho' with rfl | hmem
            · exact hot
            · exact h o' hmem
          · intro h o' ho'
            exact h o' (List.mem_cons_of_mem _ ho')
      | some t =>
          dsimp only
          constructor
          · intro h
            exact absurd h (by simp)
          · intro h
            have := h o (List.mem_cons_self o os)
            rw [hot] at this
            exact absurd this (by simp)

/-- The scan's successful result is a member's record, achieves the least
`t` any member reports for the full window, and lies strictly inside it. -/
lemma hittable_list.loopT_some_spec (r : ray) (hdir : r.direction ≠ ⟨0, 0, 0⟩)
    (lo : EReal) :
    ∀ (os : List sphere) (closest : EReal) (rc : hit_record),
    hittable_list.loopT r lo os closest = some rc →
      (∃ o ∈ os, o.hitT r ⟨lo, closest⟩ = some rc.t ∧
        rc = o.write default r rc.t) ∧
      (∀ o ∈ os, ∀ t', o.hitT r ⟨lo, closest⟩ = some t' → rc.t ≤ t') ∧
      lo < ((rc.t : ℝ) : EReal) ∧ ((rc.t : ℝ) : EReal) < closest := by
  intro os
  induction os with
  | nil =>
      intro closest rc h
      exact absurd h (by simp [hittable_list.loopT])
  | cons o os ih =>
      intro closest rc h
      rw [hittable_list.loopT] at h
      cases hot : o.hitT r ⟨lo, closest⟩ with
      | none =>
          rw [hot] at h
          dsimp only at h
          obtain ⟨⟨o', ho', hsome, hwrite⟩, hmin, hbnd⟩ := ih closest rc h
          refine ⟨⟨o', List.mem_cons_of_mem _ ho', hsome, hwrite⟩, ?_, hbnd⟩
          intro o'' ho'' t' ht'
          rcases List.mem_cons.1 ho'' with rfl | hmem
          · rw [hot] at ht'
            exact absurd ht' (by simp)
          · exact hmin o'' hmem t' ht'
      | some t =>
          rw [hot] at h
          dsimp only at h
          have hsurr : lo < ((t : ℝ) : EReal) ∧ ((t : ℝ) : EReal) < closest :=
            sphere.hitT_some_surrounds hot
          obtain ⟨hlo_t, ht_cl⟩ := hsurr
          have hle : ((t : ℝ) : EReal) ≤ closest := le_of_lt ht_cl
          cases hrec : hittable_list.loopT r lo os ((t : ℝ) : EReal) with
          | none =>
              rw [hrec] at h
              dsimp only [Option.getD] at h
              have hrc : rc = o.write default r t := (Option.some.inj h).symm
              have hrct : rc.t = t := by rw [hrc, sphere.write_t]
              refine ⟨⟨o, List.mem_cons_self o os, by rw [hrct]; exact hot,
                by rw [hrct]; exact hrc⟩, ?_, ?_, ?_⟩
              · intro o'' ho'' t' ht'
                rcases List.mem_cons.1 ho'' with rfl | hmem
                · rw [hot] at ht'
                  have heq : t = t' := Option.some.inj ht'
                  rw [hrct, ← heq]
                · have hnone : o''.hitT r ⟨lo, ((t : ℝ) : EReal)⟩ = none :=
                    ((hittable_list.loopT_none_iff r lo os _).1 hrec) o'' hmem
                  by_contra hcon
                  push_neg at hcon
                  rw [hrct] at hcon
                  have ht'' : o''.hitT r ⟨lo, ((t : ℝ) : EReal)⟩ = some t' :=
                    (sphere.hitT_narrow o'' r hdir lo closest _ hle t').2
                      ⟨ht', EReal.coe_lt_coe_iff.2 hcon⟩
                  rw [hnone] at ht''
                  exact absurd ht'' (by simp)
              · rw [hrct]; exact hlo_t
              · rw [hrct]; exact ht_cl
          | some rc' =>
              rw [hrec] at h
              dsimp only [Option.getD] at h
              have hEq : rc' = rc := Option.some.inj h
              subst hEq
              obtain ⟨⟨o', ho', hsome, hwrite⟩, hmin, hlo_rc, hrc_lt_t⟩ :=
                ih ((t : ℝ) : EReal) rc' hrec
              have hwide :
                  o'.hitT r ⟨lo, closest⟩ = some rc'.t ∧
                    ((rc'.t : ℝ) : EReal) < ((t : ℝ) : EReal) :=
                (sphere.hitT_narrow o' r hdir lo closest _ hle _).1 hsome
              refine ⟨⟨o', List.mem_cons_of_mem _ ho', hwide.1, hwrite⟩, ?_,
                hlo_rc, lt_trans hrc_lt_t ht_cl⟩
              intro o'' ho'' t' ht'
              rcases List.mem_cons.1 ho'' with rfl | hmem
              · rw [hot] at ht'
                have heq : t = t' := Option.some.inj ht'
                have : rc'.t < t := EReal.coe_lt_coe_iff.1 hrc_lt_t
                rw [← heq]
                exact le_of_lt this
              · by_cases hlt : ((t' : ℝ) : EReal) < ((t : ℝ) : EReal)
                · have hnar : o''.hitT r ⟨lo, ((t : ℝ) : EReal)⟩ = some t' :=
                    (sphere.hitT_narrow o'' r hdir lo closest _ hle t').2
                      ⟨ht', hlt⟩
                  exact hmin o'' hmem t' hnar
                · push_neg at hlt
                  have h1 : t ≤ t' := EReal.coe_le_coe_iff.1 hlt
                  have h2 : rc'.t < t := EReal.coe_lt_coe_iff.1 hrc_lt_t
                  linarith

/-! ### Concrete demonstration instances used by witnesses -/

/-- Computation: the demo sphere at `(0,0,-2)` with radius 1 hit by the ray
from the origin toward `(0,0,-1)` accepts the root `t = 1` whenever the
window's upper bound exceeds 1. -/
lemma demo_sphere_hitT (m : ℕ) (hi : EReal) (h1 : ((1 : ℝ) : EReal) < hi) :
    sphere.hitT ⟨⟨0, 0, -2⟩, 1, m⟩ ⟨⟨0, 0, 0⟩, ⟨0, 0, -1⟩⟩
      ⟨((0.001 : ℝ) : EReal), hi⟩ = some 1 := by
  have hdisc : sphere.disc ⟨⟨0, 0, -2⟩, 1, m⟩ ⟨⟨0, 0, 0⟩, ⟨0, 0, -1⟩⟩ = 1 := by
    unfold sphere.disc
    norm_num [vec3.dot, vec3.length_squared]
  have hroot : sphere.root₁ ⟨⟨0, 0, -2⟩, 1, m⟩ ⟨⟨0, 0, 0⟩, ⟨0, 0, -1⟩⟩ = 1 := by
    unfold sphere.root₁
    rw [hdisc]
    norm_num [vec3.dot, vec3.length_squared, Real.sqrt_one]
  have hsur : interval.surrounds ⟨((0.001 : ℝ) : EReal), hi⟩ (1 : ℝ) := by
    constructor
    · exact lt_of_lt_of_le (EReal.coe_lt_coe_iff.2 (by norm_num)) (le_refl _)
    · exact h1
  unfold sphere.hitT
  rw [if_neg (by rw [hdisc]; norm_num), hroot, if_pos hsur]

/-- Computation: under the window narrowed to `t < 1` the demo sphere
reports no hit (both roots 1 and 3 fall outside). -/
lemma demo_sphere_hitT_narrowed (m : ℕ) :
    sphere.hitT ⟨⟨0, 0, -2⟩, 1, m⟩ ⟨⟨0, 0, 0⟩, ⟨0, 0, -1⟩⟩
      ⟨((0.001 : ℝ) : EReal), ((1 : ℝ) : EReal)⟩ = none := by
  have hdisc : sphere.disc ⟨⟨0, 0, -2⟩, 1, m⟩ ⟨⟨0, 0, 0⟩, ⟨0, 0, -1⟩⟩ = 1 := by
    unfold sphere.disc
    norm_num [vec3.dot, vec3.length_squared]
  have hroot : sphere.root₁ ⟨⟨0, 0, -2⟩, 1, m⟩ ⟨⟨0, 0, 0⟩, ⟨0, 0, -1⟩⟩ = 1 := by
    unfold sphere.root₁
    rw [hdisc]
    norm_num [vec3.dot, vec3.length_squared, Real.sqrt_one]
  have hroot₂ : sphere.root₂ ⟨⟨0, 0, -2⟩, 1, m⟩ ⟨⟨0, 0, 0⟩, ⟨0, 0, -1⟩⟩ = 3 := by
    unfold sphere.root₂
    rw [hdisc]
    norm_num [vec3.dot, vec3.length_squared, Real.sqrt_one]
  have hn1 : ¬ interval.surrounds ⟨((0.001 : ℝ) : EReal), ((1 : ℝ) : EReal)⟩ (1 : ℝ) := by
    intro hcon
    exact absurd hcon.2 (lt_irrefl _)
  have hn2 : ¬ interval.surrounds ⟨((0.001 : ℝ) : EReal), ((1 : ℝ) : EReal)⟩ (3 : ℝ) := by
    intro hcon
    have h31 : (3 : ℝ) < 1 := EReal.coe_lt_coe_iff.1 hcon.2
    norm_num at h31
  unfold sphere.hitT
  rw [if_neg (by rw [hdisc]; norm_num), hroot, hroot₂, if_neg hn1, if_neg hn2]

/-- Computation: a ray pointing away misses the demo sphere outright
(negative discriminant), for any query window. -/
lemma demo_sphere_miss (m : ℕ) (J : interval) :
    sphere.hitT ⟨⟨0, 0, -2⟩, 1, m⟩ ⟨⟨0, 0, 0⟩, ⟨0, 1, 0⟩⟩ J = none := by
  have hdisc : sphere.disc ⟨⟨0, 0, -2⟩, 1, m⟩ ⟨⟨0, 0, 0⟩, ⟨0, 1, 0⟩⟩ = -3 := by
    unfold sphere.disc
    norm_num [vec3.dot, vec3.length_squared]
  unfold sphere.hitT
  rw [if_pos (by rw [hdisc]; norm_num)]

/-! ### Claim theorems -/

/-- C4: `camera::trace_ray` called with depth 0 returns exactly the black
color `(0,0,0)`, for every scene and every material dispatch. -/
theorem trace_ray_depth_zero_black
    (scene_hit : ray → interval → hit_record → Bool × hit_record)
    (mat_scatter : ray → hit_record → Bool × vec3 × ray) (r : ray) :
    camera.trace_ray scene_hit mat_scatter r 0 = ⟨0, 0, 0⟩ := rfl

/-- C3: after any `set_face_normal` call the stored normal satisfies
`dot(normal, r.direction) ≤ 0` and `front_face` is true exactly when
`dot(r.direction, outward_normal) < 0`; consequently every record produced by
a successful `sphere::hit` satisfies the same normal invariant. -/
theorem set_face_normal_invariant :
    (∀ (rec : hit_record) (r : ray) (outward_normal : vec3),
      vec3.dot (rec.set_face_normal r outward_normal).normal r.direction ≤ 0 ∧
      ((rec.set_face_normal r outward_normal).front_face = true ↔
        vec3.dot r.direction outward_normal < 0)) ∧
    (∀ (s : sphere) (r : ray) (I : interval) (rec₀ rec : hit_record),
      s.hit r I rec₀ = (true, rec) →
        vec3.dot rec.normal r.direction ≤ 0) := by
  constructor
  · intro rec r outward_normal
    exact ⟨set_face_normal_dot rec r outward_normal,
      set_face_normal_front rec r outward_normal⟩
  · intro s r I rec₀ rec h
    rw [sphere.hit_eq_hitT] at h
    cases hot : s.hitT r I with
    | none =>
        rw [hot] at h
        exact absurd h (by simp)
    | some t =>
        rw [hot] at h
        dsimp only at h
        have hrec : s.write rec₀ r t = rec := (Prod.ext_iff.1 h).2
        rw [← hrec]
        exact sphere.write_normal_dot s rec₀ r t

/-- C3 witness: a concrete successful sphere hit whose record satisfies the
normal invariant. -/
theorem set_face_normal_invariant_witness :
    sphere.hit ⟨⟨0, 0, -2⟩, 1, 5⟩ ⟨⟨0, 0, 0⟩, ⟨0, 0, -1⟩⟩
        ⟨((0.001 : ℝ) : EReal), ⊤⟩ default =
      (true, (sphere.hit ⟨⟨0, 0, -2⟩, 1, 5⟩ ⟨⟨0, 0, 0⟩, ⟨0, 0, -1⟩⟩
        ⟨((0.001 : ℝ) : EReal), ⊤⟩ default).2) ∧
    vec3.dot (sphere.hit ⟨⟨0, 0, -2⟩, 1, 5⟩ ⟨⟨0, 0, 0⟩, ⟨0, 0, -1⟩⟩
        ⟨((0.001 : ℝ) : EReal), ⊤⟩ default).2.normal (⟨0, 0, -1⟩ : vec3) ≤ 0 := by
  have hT := demo_sphere_hitT 5 ⊤ (EReal.coe_lt_top 1)
  have heq : sphere.hit ⟨⟨0, 0, -2⟩, 1, 5⟩ ⟨⟨0, 0, 0⟩, ⟨0, 0, -1⟩⟩
      ⟨((0.001 : ℝ) : EReal), ⊤⟩ default =
      (true, (sphere.hit ⟨⟨0, 0, -2⟩, 1, 5⟩ ⟨⟨0, 0, 0⟩, ⟨0, 0, -1⟩⟩
        ⟨((0.001 : ℝ) : EReal), ⊤⟩ default).2) := by
    rw [sphere.hit_eq_hitT, hT]
  exact ⟨heq, set_face_normal_invariant.2 _ _ _ _ _ heq⟩

/-- C6 counterexample: the metal constructor stores a negative fuzz
unchanged, so the stored value is not clamped into `[0,1]`. -/
theorem metal_fuzz_counterexample :
    (metal.make ⟨0, 0, 0⟩ (-1)).fuzz = -1 ∧
      ¬ (0 ≤ (metal.make ⟨0, 0, 0⟩ (-1)).fuzz ∧
          (metal.make ⟨0, 0, 0⟩ (-1)).fuzz ≤ 1) := by
  have h : (metal.make ⟨0, 0, 0⟩ (-1)).fuzz = -1 := by
    unfold metal.make
    rw [if_pos (by norm_num)]
  refine ⟨h, ?_⟩
  rw [h]
  norm_num

/-- C6 (amended): the metal constructor clamps fuzz only from above, storing
`min(fuzz, 1)`; the stored value therefore lies in `[0,1]` exactly for
nonnegative inputs (and is never modified afterwards — the model has no
mutation of the stored field). -/
theorem metal_fuzz_amended (albedo : vec3) (fuzz : ℝ) :
    (metal.make albedo fuzz).fuzz = min fuzz 1 ∧
      (metal.make albedo fuzz).fuzz ≤ 1 ∧
      (0 ≤ fuzz →
        0 ≤ (metal.make albedo fuzz).fuzz ∧ (metal.make albedo fuzz).fuzz ≤ 1) := by
  have h : (metal.make albedo fuzz).fuzz = min fuzz 1 := by
    unfold metal.make
    dsimp only
    split_ifs with hf
    · exact (min_eq_left (le_of_lt hf)).symm
    · push_neg at hf
      exact (min_eq_right hf).symm
  refine ⟨h, ?_, ?_⟩
  · rw [h]
    exact min_le_right _ _
  · intro hf
    rw [h]
    exact ⟨le_min hf (by norm_num), min_le_right _ _⟩

/-- C6 witness: for the nonnegative input `0.5` the stored fuzz lies in
`[0,1]`. -/
theorem metal_fuzz_amended_witness :
    (0 : ℝ) ≤ 0.5 ∧
      (0 ≤ (metal.make ⟨0, 0, 0⟩ 0.5).fuzz ∧ (metal.make ⟨0, 0, 0⟩ 0.5).fuzz ≤ 1) :=
  ⟨by norm_num, (metal_fuzz_amended ⟨0, 0, 0⟩ 0.5).2.2 (by norm_num)⟩

/-- Clamping against finite real bounds is `max`/`min` saturation. -/
lemma clamp_coe (a b x : ℝ) (hab : a ≤ b) :
    (interval.mk (a : EReal) (b : EReal)).clamp x = max a (min x b) := by
  unfold interval.clamp
  dsimp only
  split_ifs with h1 h2
  · rw [EReal.toReal_coe]
    have hxa : x < a := EReal.coe_lt_coe_iff.1 h1
    rw [max_eq_left (le_trans (min_le_left _ _) (le_of_lt hxa))]
  · rw [EReal.toReal_coe]
    have hbx : b < x := EReal.coe_lt_coe_iff.1 h2
    rw [min_eq_right (le_of_lt hbx), max_eq_right hab]
  · have hax : a ≤ x := by
      have := not_lt.1 h1
      exact EReal.coe_le_coe_iff.1 this
    have hxb : x ≤ b := by
      have := not_lt.1 h2
      exact EReal.coe_le_coe_iff.1 this
    rw [min_eq_left hxb, max_eq_right hax]

/-- One channel of `write_color`: closed form and byte-range bounds. -/
lemma write_color_byte_spec (c : ℝ) :
    write_color_byte c =
      ⌊256 * max 0 (min (if 0 < c then Real.sqrt c else 0) 0.999)⌋ ∧
      0 ≤ write_color_byte c ∧ write_color_byte c ≤ 255 := by
  have hg : linear_to_gamma c = if 0 < c then Real.sqrt c else 0 := rfl
  have hclamp : intensity.clamp (linear_to_gamma c)
      = max 0 (min (linear_to_gamma c) 0.999) := by
    have h := clamp_coe 0 0.999 (linear_to_gamma c) (by norm_num)
    have hint : intensity = interval.mk ((0 : ℝ) : EReal) ((0.999 : ℝ) : EReal) := by
      unfold intensity
      norm_num
    rw [hint]
    exact h
  have hm0 : 0 ≤ max 0 (min (linear_to_gamma c) 0.999) := le_max_left _ _
  have hm1 : max 0 (min (linear_to_gamma c) 0.999) ≤ 0.999 := by
    apply max_le (by norm_num) (min_le_right _ _)
  have hbyte : write_color_byte c
      = ⌊256 * max 0 (min (linear_to_gamma c) 0.999)⌋ := by
    unfold write_color_byte int_trunc
    rw [hclamp, if_pos (by positivity)]
  refine ⟨by rw [hbyte, hg], ?_, ?_⟩
  · rw [hbyte]
    exact Int.floor_nonneg.2 (by positivity)
  · rw [hbyte]
    have : (⌊256 * max 0 (min (linear_to_gamma c) 0.999)⌋ : ℤ) < 256 := by
      apply Int.floor_lt.2
      push_cast
      nlinarith
    omega

/-- C9: `write_color` emits, for each channel, the integer
`floor(256 * clamp(g, 0, 0.999))` where `g` is the square root of the channel
when positive and 0 otherwise; every emitted byte lies in `[0, 255]`. -/
theorem write_color_correct (pixel_color : vec3) :
    ((write_color pixel_color).1 =
        ⌊256 * max 0 (min (if 0 < pixel_color.x then Real.sqrt pixel_color.x else 0) 0.999)⌋ ∧
      (write_color pixel_color).2.1 =
        ⌊256 * max 0 (min (if 0 < pixel_color.y then Real.sqrt pixel_color.y else 0) 0.999)⌋ ∧
      (write_color pixel_color).2.2 =
        ⌊256 * max 0 (min (if 0 < pixel_color.z then Real.sqrt pixel_color.z else 0) 0.999)⌋) ∧
    (0 ≤ (write_color pixel_color).1 ∧ (write_color pixel_color).1 ≤ 255) ∧
    (0 ≤ (write_color pixel_color).2.1 ∧ (write_color pixel_color).2.1 ≤ 255) ∧
    (0 ≤ (write_color pixel_color).2.2 ∧ (write_color pixel_color).2.2 ≤ 255) := by
  obtain ⟨hx1, hx2, hx3⟩ := write_color_byte_spec pixel_color.x
  obtain ⟨hy1, hy2, hy3⟩ := write_color_byte_spec pixel_color.y
  obtain ⟨hz1, hz2, hz3⟩ := write_color_byte_spec pixel_color.z
  exact ⟨⟨hx1, hy1, hz1⟩, ⟨hx2, hx3⟩, ⟨hy2, hy3⟩, ⟨hz2, hz3⟩⟩

/-- Adding zero scaled by anything leaves a vector unchanged. -/
lemma vec3.add_zero_smul (u v : vec3) : u + (0 : ℝ) • v = u := by
  simp [vec3.smul_def, vec3.add_def]

/-- C7 counterexample: with fuzz 0 the scattered direction is the
normalized reflection, which differs from the raw reflection for a non-unit
incoming direction. -/
theorem metal_mirror_counterexample :
    ((metal.make ⟨1, 1, 1⟩ 0).scatter ⟨⟨0, 0, 0⟩, ⟨0, 0, -2⟩⟩
        ⟨⟨0, 0, 0⟩, ⟨0, 0, 1⟩, 0, 0, true⟩ ⟨0, 0, 0⟩).2.2.direction ≠
      vec3.reflect (⟨0, 0, -2⟩ : vec3) (⟨0, 0, 1⟩ : vec3) := by
  have hrefl : vec3.reflect (⟨0, 0, -2⟩ : vec3) (⟨0, 0, 1⟩ : vec3) = ⟨0, 0, 2⟩ := by
    unfold vec3.reflect
    norm_num [vec3.dot]
  have hfuzz : (metal.make ⟨1, 1, 1⟩ 0).fuzz = 0 := by
    unfold metal.make
    rw [if_pos (by norm_num)]
  have hunit : vec3.unit_vector (⟨0, 0, 2⟩ : vec3) = ⟨0, 0, 1⟩ := by
    unfold vec3.unit_vector vec3.length
    have h4 : vec3.length_squared (⟨0, 0, 2⟩ : vec3) = 4 := by
      norm_num [vec3.length_squared]
    rw [h4, show (4 : ℝ) = 2 ^ 2 by norm_num, Real.sqrt_sq (by norm_num : (0:ℝ) ≤ 2)]
    norm_num [vec3.div_def, vec3.smul_def]
  have hdir : ((metal.make ⟨1, 1, 1⟩ 0).scatter ⟨⟨0, 0, 0⟩, ⟨0, 0, -2⟩⟩
      ⟨⟨0, 0, 0⟩, ⟨0, 0, 1⟩, 0, 0, true⟩ ⟨0, 0, 0⟩).2.2.direction = ⟨0, 0, 1⟩ := by
    unfold metal.scatter
    dsimp only
    rw [hfuzz, hrefl, hunit, vec3.add_zero_smul]
  rw [hdir, hrefl]
  intro hcon
  have := congrArg vec3.z hcon
  norm_num at this

/-- C7 (amended): with fuzz 0, `metal::scatter` sets the scattered direction
to the normalized reflection `unit_vector(reflect(incoming.direction,
normal))`; when that reflection already has unit length (in particular for
unit incoming directions against unit normals) this equals
`reflect(incoming.direction, normal)` exactly. -/
theorem metal_mirror_amended (m : metal) (r_in : ray) (rec : hit_record)
    (rand_unit : vec3) (hf : m.fuzz = 0) :
    (m.scatter r_in rec rand_unit).2.2.direction =
        vec3.unit_vector (vec3.reflect r_in.direction rec.normal) ∧
      ((vec3.reflect r_in.direction rec.normal).length_squared = 1 →
        (m.scatter r_in rec rand_unit).2.2.direction =
          vec3.reflect r_in.direction rec.normal) := by
  have hdir : (m.scatter r_in rec rand_unit).2.2.direction =
      vec3.unit_vector (vec3.reflect r_in.direction rec.normal) := by
    unfold metal.scatter
    dsimp only
    rw [hf, vec3.add_zero_smul]
  refine ⟨hdir, ?_⟩
  intro hlen
  rw [hdir]
  unfold vec3.unit_vector vec3.length
  rw [hlen, Real.sqrt_one]
  simp [vec3.div_def, vec3.smul_def]

/-- C7 witness: a concrete fuzz-0 metal scatter where the reflection has unit
length, so the scattered direction is exactly the reflection. -/
theorem metal_mirror_amended_witness :
    (metal.make ⟨1, 1, 1⟩ 0).fuzz = 0 ∧
    (vec3.reflect (⟨0, 0, -1⟩ : vec3) (⟨0, 0, 1⟩ : vec3)).length_squared = 1 ∧
    ((metal.make ⟨1, 1, 1⟩ 0).scatter ⟨⟨0, 0, 0⟩, ⟨0, 0, -1⟩⟩
        ⟨⟨0, 0, 0⟩, ⟨0, 0, 1⟩, 0, 0, true⟩ ⟨0, 0, 0⟩).2.2.direction =
      vec3.reflect (⟨0, 0, -1⟩ : vec3) (⟨0, 0, 1⟩ : vec3) := by
  have hfuzz : (metal.make ⟨1, 1, 1⟩ 0).fuzz = 0 := by
    unfold metal.make
    rw [if_pos (by norm_num)]
  have hlen : (vec3.reflect (⟨0, 0, -1⟩ : vec3) (⟨0, 0, 1⟩ : vec3)).length_squared = 1 := by
    unfold vec3.reflect
    norm_num [vec3.dot, vec3.length_squared]
  exact ⟨hfuzz, hlen,
    (metal_mirror_amended (metal.make ⟨1, 1, 1⟩ 0) ⟨⟨0, 0, 0⟩, ⟨0, 0, -1⟩⟩
      ⟨⟨0, 0, 0⟩, ⟨0, 0, 1⟩, 0, 0, true⟩ ⟨0, 0, 0⟩ hfuzz).2 hlen⟩

/-- C8: `dielectric::scatter` always scatters (never signals absorption),
sets the attenuation to exactly `(1,1,1)`, and under total internal
reflection (refraction ratio times sin(theta) exceeding 1) the scattered
direction is the reflection of the unit incoming direction about the
normal — for every random draw. -/
theorem dielectric_scatter_correct (d : dielectric) (r_in : ray)
    (rec : hit_record) (rand : ℝ) :
    (d.scatter r_in rec rand).1 = true ∧
    (d.scatter r_in rec rand).2.1 = ⟨1, 1, 1⟩ ∧
    (1 < (if rec.front_face then 1 / d.refraction_index else d.refraction_index)
          * Real.sqrt (1 -
            min (vec3.dot (-(vec3.unit_vector r_in.direction)) rec.normal) 1
              * min (vec3.dot (-(vec3.unit_vector r_in.direction)) rec.normal) 1) →
      (d.scatter r_in rec rand).2.2.direction =
        vec3.reflect (vec3.unit_vector r_in.direction) rec.normal) := by
  refine ⟨rfl, rfl, ?_⟩
  intro h
  unfold dielectric.scatter
  dsimp only
  rw [if_pos (Or.inl h)]

/-- C8 witness: a concrete total-internal-reflection configuration (exiting a
dense medium at a right angle) where the scatter reflects. -/
theorem dielectric_scatter_correct_witness :
    ((dielectric.mk 2).scatter ⟨⟨0, 0, 0⟩, ⟨1, 0, 0⟩⟩
        ⟨⟨0, 0, 0⟩, ⟨0, 0, 1⟩, 0, 0, false⟩ 0.5).1 = true ∧
    ((dielectric.mk 2).scatter ⟨⟨0, 0, 0⟩, ⟨1, 0, 0⟩⟩
        ⟨⟨0, 0, 0⟩, ⟨0, 0, 1⟩, 0, 0, false⟩ 0.5).2.1 = ⟨1, 1, 1⟩ ∧
    ((dielectric.mk 2).scatter ⟨⟨0, 0, 0⟩, ⟨1, 0, 0⟩⟩
        ⟨⟨0, 0, 0⟩, ⟨0, 0, 1⟩, 0, 0, false⟩ 0.5).2.2.direction =
      vec3.reflect (vec3.unit_vector (⟨1, 0, 0⟩ : vec3)) (⟨0, 0, 1⟩ : vec3) := by
  have h := dielectric_scatter_correct ⟨2⟩ ⟨⟨0, 0, 0⟩, ⟨1, 0, 0⟩⟩
    ⟨⟨0, 0, 0⟩, ⟨0, 0, 1⟩, 0, 0, false⟩ 0.5
  refine ⟨h.1, h.2.1, h.2.2 ?_⟩
  have hunit : vec3.unit_vector (⟨1, 0, 0⟩ : vec3) = ⟨1, 0, 0⟩ := by
    unfold vec3.unit_vector vec3.length
    have h1 : vec3.length_squared (⟨1, 0, 0⟩ : vec3) = 1 := by
      norm_num [vec3.length_squared]
    rw [h1, Real.sqrt_one]
    norm_num [vec3.div_def, vec3.smul_def]
  rw [hunit]
  have hdot : vec3.dot (-(⟨1, 0, 0⟩ : vec3)) (⟨0, 0, 1⟩ : vec3) = 0 := by
    norm_num [vec3.dot, vec3.neg_def]
  rw [hdot]
  norm_num [Real.sqrt_one]

/-- C5: when the scene reports no hit for the `(0.001, +infinity)` window and
the depth is at least 1, `trace_ray` returns the background gradient
`(1-t)*(1,1,1) + t*(0.5,0.7,1.0)` with `t = 0.5*(unit_direction.y + 1)`. -/
theorem trace_ray_background
    (scene_hit : ray → interval → hit_record → Bool × hit_record)
    (mat_scatter : ray → hit_record → Bool × vec3 × ray)
    (r : ray) (depth : ℕ) (hdepth : 1 ≤ depth)
    (hmiss : (scene_hit r ⟨((0.001 : ℝ) : EReal), ⊤⟩ default).1 = false) :
    camera.trace_ray scene_hit mat_scatter r depth =
      (1.0 - 0.5 * ((vec3.unit_vector r.direction).y + 1.0))
          • (⟨1.0, 1.0, 1.0⟩ : vec3)
        + (0.5 * ((vec3.unit_vector r.direction).y + 1.0))
          • (⟨0.5, 0.7, 1.0⟩ : vec3) := by
  obtain ⟨d, rfl⟩ : ∃ d, depth = d + 1 := ⟨depth - 1, by omega⟩
  rw [camera.trace_ray]
  dsimp only
  rw [hmiss, if_neg Bool.false_ne_true]

/-- C5 witness: the ray with direction `(0,1,0)` in an empty scene yields
exactly the color `(0.5, 0.7, 1.0)`. -/
theorem trace_ray_background_witness :
    (hittable_list.hit [] ⟨⟨0, 0, 0⟩, ⟨0, 1, 0⟩⟩
        ⟨((0.001 : ℝ) : EReal), ⊤⟩ default).1 = false ∧
    camera.trace_ray (hittable_list.hit [])
        (fun _ rec => (false, ⟨0, 0, 0⟩, ⟨rec.p, rec.normal⟩))
        ⟨⟨0, 0, 0⟩, ⟨0, 1, 0⟩⟩ 1 = ⟨0.5, 0.7, 1.0⟩ := by
  have hmiss : (hittable_list.hit [] ⟨⟨0, 0, 0⟩, ⟨0, 1, 0⟩⟩
      ⟨((0.001 : ℝ) : EReal), ⊤⟩ default).1 = false := rfl
  refine ⟨hmiss, ?_⟩
  rw [trace_ray_background (hittable_list.hit [])
    (fun _ rec => (false, ⟨0, 0, 0⟩, ⟨rec.p, rec.normal⟩))
    ⟨⟨0, 0, 0⟩, ⟨0, 1, 0⟩⟩ 1 (le_refl 1) hmiss]
  have hunit : vec3.unit_vector (⟨0, 1, 0⟩ : vec3) = ⟨0, 1, 0⟩ := by
    unfold vec3.unit_vector vec3.length
    have h1 : vec3.length_squared (⟨0, 1, 0⟩ : vec3) = 1 := by
      norm_num [vec3.length_squared]
    rw [h1, Real.sqrt_one]
    norm_num [vec3.div_def, vec3.smul_def]
  rw [hunit]
  norm_num [vec3.smul_def, vec3.add_def]

/-- C10: whenever `sphere::hit` or `hittable_list::hit` returns false, the
caller's hit-record argument is returned completely unchanged; the record is
written only on a successful hit. -/
theorem hit_no_write_on_miss :
    (∀ (s : sphere) (r : ray) (I : interval) (rec : hit_record),
      (s.hit r I rec).1 = false → (s.hit r I rec).2 = rec) ∧
    (∀ (L : List sphere) (r : ray) (I : interval) (rec : hit_record),
      (hittable_list.hit L r I rec).1 = false →
        (hittable_list.hit L r I rec).2 = rec) := by
  constructor
  · intro s r I rec h
    rw [sphere.hit_eq_hitT] at h ⊢
    cases hot : s.hitT r I with
    | none => rfl
    | some t =>
        rw [hot] at h
        simp at h
  · intro L r I rec h
    unfold hittable_list.hit at h ⊢
    rw [hittable_list.loop_eq_loopT] at h ⊢
    cases hL : hittable_list.loopT r I.min L I.max with
    | none => rfl
    | some rc =>
        rw [hL] at h
        simp at h

/-- C10 witness: a concrete miss for both the sphere and the singleton list,
each leaving the record at its incoming value. -/
theorem hit_no_write_on_miss_witness :
    (sphere.hit ⟨⟨0, 0, -2⟩, 1, 7⟩ ⟨⟨0, 0, 0⟩, ⟨0, 1, 0⟩⟩
        ⟨((0.001 : ℝ) : EReal), ⊤⟩ default).1 = false ∧
    (sphere.hit ⟨⟨0, 0, -2⟩, 1, 7⟩ ⟨⟨0, 0, 0⟩, ⟨0, 1, 0⟩⟩
        ⟨((0.001 : ℝ) : EReal), ⊤⟩ default).2 = default ∧
    (hittable_list.hit [⟨⟨0, 0, -2⟩, 1, 7⟩] ⟨⟨0, 0, 0⟩, ⟨0, 1, 0⟩⟩
        ⟨((0.001 : ℝ) : EReal), ⊤⟩ default).1 = false ∧
    (hittable_list.hit [⟨⟨0, 0, -2⟩, 1, 7⟩] ⟨⟨0, 0, 0⟩, ⟨0, 1, 0⟩⟩
        ⟨((0.001 : ℝ) : EReal), ⊤⟩ default).2 = default := by
  have hsm : (sphere.hit ⟨⟨0, 0, -2⟩, 1, 7⟩ ⟨⟨0, 0, 0⟩, ⟨0, 1, 0⟩⟩
      ⟨((0.001 : ℝ) : EReal), ⊤⟩ default).1 = false := by
    rw [sphere.hit_eq_hitT, demo_sphere_miss 7 _]
  have hlm : (hittable_list.hit [⟨⟨0, 0, -2⟩, 1, 7⟩] ⟨⟨0, 0, 0⟩, ⟨0, 1, 0⟩⟩
      ⟨((0.001 : ℝ) : EReal), ⊤⟩ default).1 = false := by
    unfold hittable_list.hit
    rw [hittable_list.loop_eq_loopT]
    have hL : hittable_list.loopT ⟨⟨0, 0, 0⟩, ⟨0, 1, 0⟩⟩ ((0.001 : ℝ) : EReal)
        [⟨⟨0, 0, -2⟩, 1, 7⟩] ⊤ = none := by
      rw [hittable_list.loopT, demo_sphere_miss 7 _]
      rfl
    rw [hL]
  exact ⟨hsm, hit_no_write_on_miss.1 _ _ _ _ hsm, hlm,
    hit_no_write_on_miss.2 _ _ _ _ hlm⟩

/-- Computation: the demo sphere/ray discriminant is 1. -/
lemma demo_disc (m : ℕ) :
    sphere.disc ⟨⟨0, 0, -2⟩, 1, m⟩ ⟨⟨0, 0, 0⟩, ⟨0, 0, -1⟩⟩ = 1 := by
  unfold sphere.disc
  norm_num [vec3.dot, vec3.length_squared]

/-- Computation: the demo sphere/ray smaller root is 1. -/
lemma demo_root₁ (m : ℕ) :
    sphere.root₁ ⟨⟨0, 0, -2⟩, 1, m⟩ ⟨⟨0, 0, 0⟩, ⟨0, 0, -1⟩⟩ = 1 := by
  unfold sphere.root₁
  rw [demo_disc]
  norm_num [vec3.dot, vec3.length_squared, Real.sqrt_one]

/-- Computation: the demo ray direction is nonzero. -/
lemma demo_dir_ne : (⟨0, 0, -1⟩ : vec3) ≠ ⟨0, 0, 0⟩ := by
  intro hcon
  have := congrArg vec3.z hcon
  norm_num at this

/-- C1: `sphere::hit` signals no-hit when the discriminant is negative;
otherwise it accepts the smaller root when that lies strictly inside the
interval, else the larger root when that does, else signals no-hit; on
acceptance the returned `t` is the nearest (smallest) parameter strictly
inside the interval at which the ray meets the sphere. -/
theorem sphere_hit_correct (s : sphere) (r : ray) (I : interval)
    (rec₀ : hit_record) (hdir : r.direction ≠ ⟨0, 0, 0⟩)
    (hrad : 0 ≤ s.radius) :
    (s.disc r < 0 → s.hit r I rec₀ = (false, rec₀)) ∧
    (0 ≤ s.disc r →
      s.root₁ r ≤ s.root₂ r ∧
      (I.surrounds (s.root₁ r) →
        (s.hit r I rec₀).1 = true ∧ (s.hit r I rec₀).2.t = s.root₁ r) ∧
      (¬ I.surrounds (s.root₁ r) → I.surrounds (s.root₂ r) →
        (s.hit r I rec₀).1 = true ∧ (s.hit r I rec₀).2.t = s.root₂ r) ∧
      (¬ I.surrounds (s.root₁ r) → ¬ I.surrounds (s.root₂ r) →
        s.hit r I rec₀ = (false, rec₀))) ∧
    (∀ rec : hit_record, s.hit r I rec₀ = (true, rec) →
      I.surrounds rec.t ∧
      (r.at rec.t - s.center).length_squared = s.radius * s.radius ∧
      (∀ t : ℝ, (r.at t - s.center).length_squared = s.radius * s.radius →
        I.surrounds t → rec.t ≤ t)) := by
  refine ⟨?_, ?_, ?_⟩
  · intro hd
    have hT : s.hitT r I = none := by
      unfold sphere.hitT
      rw [if_pos hd]
    rw [sphere.hit_eq_hitT, hT]
  · intro hd
    refine ⟨s.root₁_le_root₂ r hdir, ?_, ?_, ?_⟩
    · intro hs1
      have hT : s.hitT r I = some (s.root₁ r) := by
        unfold sphere.hitT
        rw [if_neg (not_lt.2 hd), if_pos hs1]
      rw [sphere.hit_eq_hitT, hT]
      exact ⟨rfl, sphere.write_t s rec₀ r (s.root₁ r)⟩
    · intro hn1 hs2
      have hT : s.hitT r I = some (s.root₂ r) := by
        unfold sphere.hitT
        rw [if_neg (not_lt.2 hd), if_neg hn1, if_pos hs2]
      rw [sphere.hit_eq_hitT, hT]
      exact ⟨rfl, sphere.write_t s rec₀ r (s.root₂ r)⟩
    · intro hn1 hn2
      have hT : s.hitT r I = none := by
        unfold sphere.hitT
        rw [if_neg (not_lt.2 hd), if_neg hn1, if_neg hn2]
      rw [sphere.hit_eq_hitT, hT]
  · intro rec hrec
    rw [sphere.hit_eq_hitT] at hrec
    cases hot : s.hitT r I with
    | none =>
        rw [hot] at hrec
        exact absurd hrec (by simp)
    | some t =>
        rw [hot] at hrec
        dsimp only at hrec
        have h2 : s.write rec₀ r t = rec := (Prod.ext_iff.1 hrec).2
        have hrt : rec.t = t := by rw [← h2, sphere.write_t]
        obtain ⟨hd, hcases⟩ := sphere.hitT_some_cases hot
        have hsurr : I.surrounds t := sphere.hitT_some_surrounds hot
        refine ⟨by rw [hrt]; exact hsurr, ?_, ?_⟩
        · rw [hrt, sphere.meets_iff_root s r hdir hd]
          rcases hcases with h1 | ⟨h1, _⟩
          · exact Or.inl h1
          · exact Or.inr h1
        · intro t' hmeet hsurr'
          rw [sphere.meets_iff_root s r hdir hd] at hmeet
          rw [hrt]
          rcases hcases with h1 | ⟨h1, hnot1⟩
          · rcases hmeet with rfl | rfl
            · exact le_of_eq h1
            · rw [h1]
              exact s.root₁_le_root₂ r hdir
          · rcases hmeet with rfl | rfl
            · exact absurd hsurr' hnot1
            · exact le_of_eq h1

/-- C1 witness: the demo sphere and axis ray, whose smaller root 1 is
accepted by the `(0.001, +infinity)` interval. -/
theorem sphere_hit_correct_witness :
    (⟨0, 0, -1⟩ : vec3) ≠ ⟨0, 0, 0⟩ ∧ (0 : ℝ) ≤ 1 ∧
    (sphere.hit ⟨⟨0, 0, -2⟩, 1, 5⟩ ⟨⟨0, 0, 0⟩, ⟨0, 0, -1⟩⟩
        ⟨((0.001 : ℝ) : EReal), ⊤⟩ default).1 = true ∧
    (sphere.hit ⟨⟨0, 0, -2⟩, 1, 5⟩ ⟨⟨0, 0, 0⟩, ⟨0, 0, -1⟩⟩
        ⟨((0.001 : ℝ) : EReal), ⊤⟩ default).2.t =
      sphere.root₁ ⟨⟨0, 0, -2⟩, 1, 5⟩ ⟨⟨0, 0, 0⟩, ⟨0, 0, -1⟩⟩ := by
  have hsur : interval.surrounds ⟨((0.001 : ℝ) : EReal), ⊤⟩
      (sphere.root₁ ⟨⟨0, 0, -2⟩, 1, 5⟩ ⟨⟨0, 0, 0⟩, ⟨0, 0, -1⟩⟩) := by
    rw [demo_root₁]
    exact ⟨EReal.coe_lt_coe_iff.2 (by norm_num), EReal.coe_lt_top 1⟩
  have hpart := ((sphere_hit_correct ⟨⟨0, 0, -2⟩, 1, 5⟩ ⟨⟨0, 0, 0⟩, ⟨0, 0, -1⟩⟩
      ⟨((0.001 : ℝ) : EReal), ⊤⟩ default demo_dir_ne (by norm_num)).2.1
      (by rw [demo_disc]; norm_num)).2.1 hsur
  exact ⟨demo_dir_ne, by norm_num, hpart.1, hpart.2⟩

/-- Eta rule for intervals. -/
lemma interval.eta (I : interval) : (⟨I.min, I.max⟩ : interval) = I := rfl

lemma sphere.hit_fst_false_iff (s : sphere) (r : ray) (I : interval)
    (rec₀ : hit_record) :
    (s.hit r I rec₀).1 = false ↔ s.hitT r I = none := by
  rw [sphere.hit_eq_hitT]
  cases h : s.hitT r I <;> simp

lemma sphere.hit_t_of_hitT (s : sphere) (r : ray) (I : interval)
    (rec₀ : hit_record) (t : ℝ) (h : s.hitT r I = some t) :
    (s.hit r I rec₀).1 = true ∧ (s.hit r I rec₀).2.t = t := by
  rw [sphere.hit_eq_hitT, h]
  exact ⟨rfl, sphere.write_t s rec₀ r t⟩

/-- The list hit in terms of the functional scan. -/
lemma list_hit_eq (L : List sphere) (r : ray) (I : interval)
    (rec₀ : hit_record) :
    hittable_list.hit L r I rec₀ =
      match hittable_list.loopT r I.min L I.max with
      | none => (false, rec₀)
      | some rc => (true, rc) := by
  unfold hittable_list.hit
  rw [hittable_list.loop_eq_loopT]

/-- The list reports no hit exactly when every member misses. -/
lemma list_hit_none_iff (L : List sphere) (r : ray) (I : interval)
    (rec₀ : hit_record) :
    (hittable_list.hit L r I rec₀).1 = false ↔
      ∀ s ∈ L, (s.hit r I rec₀).1 = false := by
  rw [list_hit_eq]
  cases hL : hittable_list.loopT r I.min L I.max with
  | none =>
      dsimp only
      constructor
      · intro _ s hs
        rw [sphere.hit_fst_false_iff, ← interval.eta I]
        exact ((hittable_list.loopT_none_iff r I.min L I.max).1 hL) s hs
      · intro _
        rfl
  | some rc =>
      dsimp only
      constructor
      · intro h
        exact absurd h (by simp)
      · intro hall
        exfalso
        have hnone : hittable_list.loopT r I.min L I.max = none := by
          rw [hittable_list.loopT_none_iff]
          intro s hs
          rw [interval.eta I]
          exact (sphere.hit_fst_false_iff s r I rec₀).1 (hall s hs)
        rw [hnone] at hL
        exact absurd hL (by simp)

/-- On a successful list hit, the result's `t` is a member's reported `t` and
is minimal among all member reports for the same query interval. -/
lemma list_hit_some_spec (L : List sphere) (r : ray) (I : interval)
    (rec₀ : hit_record) (hdir : r.direction ≠ ⟨0, 0, 0⟩) (rec : hit_record)
    (h : hittable_list.hit L r I rec₀ = (true, rec)) :
    (∃ s ∈ L, (s.hit r I rec₀).1 = true ∧ (s.hit r I rec₀).2.t = rec.t) ∧
    (∀ s ∈ L, (s.hit r I rec₀).1 = true → rec.t ≤ (s.hit r I rec₀).2.t) := by
  rw [list_hit_eq] at h
  cases hL : hittable_list.loopT r I.min L I.max with
  | none =>
      rw [hL] at h
      exact absurd h (by simp)
  | some rc =>
      rw [hL] at h
      dsimp only at h
      have hEq : rc = rec := (Prod.ext_iff.1 h).2
      subst hEq
      obtain ⟨⟨o, ho, hsome, _⟩, hmin, _, _⟩ :=
        hittable_list.loopT_some_spec r hdir I.min L I.max rc hL
      rw [interval.eta I] at hsome
      constructor
      · exact ⟨o, ho, (sphere.hit_t_of_hitT o r I rec₀ rc.t hsome).1,
          (sphere.hit_t_of_hitT o r I rec₀ rc.t hsome).2⟩
      · intro s hs hflag
        have hne : s.hitT r I ≠ none := by
          intro hn
          have hf := (sphere.hit_fst_false_iff s r I rec₀).2 hn
          rw [hflag] at hf
          exact absurd hf (by simp)
        obtain ⟨t'', ht''⟩ := Option.ne_none_iff_exists'.1 hne
        have hle := hmin s hs t'' (by rw [interval.eta I]; exact ht'')
        rw [(sphere.hit_t_of_hitT s r I rec₀ t'' ht'').2]
        exact hle

/-- C2 counterexample: two coincident spheres with different materials; the
two orders of the member list return different hit records (they differ in
the stored material), falsifying record-level permutation invariance. -/
theorem list_hit_perm_counterexample :
    ([⟨⟨0, 0, -2⟩, 1, 1⟩, ⟨⟨0, 0, -2⟩, 1, 2⟩] : List sphere).Perm
      [⟨⟨0, 0, -2⟩, 1, 2⟩, ⟨⟨0, 0, -2⟩, 1, 1⟩] ∧
    (hittable_list.hit [⟨⟨0, 0, -2⟩, 1, 1⟩, ⟨⟨0, 0, -2⟩, 1, 2⟩]
        ⟨⟨0, 0, 0⟩, ⟨0, 0, -1⟩⟩ ⟨((0.001 : ℝ) : EReal), ⊤⟩ default).2 ≠
      (hittable_list.hit [⟨⟨0, 0, -2⟩, 1, 2⟩, ⟨⟨0, 0, -2⟩, 1, 1⟩]
        ⟨⟨0, 0, 0⟩, ⟨0, 0, -1⟩⟩ ⟨((0.001 : ℝ) : EReal), ⊤⟩ default).2 := by
  have hpair : ∀ m₁ m₂ : ℕ,
      hittable_list.loopT ⟨⟨0, 0, 0⟩, ⟨0, 0, -1⟩⟩ ((0.001 : ℝ) : EReal)
        [⟨⟨0, 0, -2⟩, 1, m₁⟩, ⟨⟨0, 0, -2⟩, 1, m₂⟩] ⊤ =
      some (sphere.write ⟨⟨0, 0, -2⟩, 1, m₁⟩ default
        ⟨⟨0, 0, 0⟩, ⟨0, 0, -1⟩⟩ 1) := by
    intro m₁ m₂
    rw [hittable_list.loopT, demo_sphere_hitT m₁ ⊤ (EReal.coe_lt_top 1)]
    dsimp only
    rw [hittable_list.loopT, demo_sphere_hitT_narrowed m₂]
    rfl
  have hmat : ∀ m₁ m₂ : ℕ,
      (hittable_list.hit [⟨⟨0, 0, -2⟩, 1, m₁⟩, ⟨⟨0, 0, -2⟩, 1, m₂⟩]
        ⟨⟨0, 0, 0⟩, ⟨0, 0, -1⟩⟩ ⟨((0.001 : ℝ) : EReal), ⊤⟩ default).2.mat = m₁ := by
    intro m₁ m₂
    rw [list_hit_eq, hpair m₁ m₂]
    exact sphere.write_mat _ _ _ _
  refine ⟨List.Perm.swap _ _ _, ?_⟩
  intro hcon
  have := congrArg hit_record.mat hcon
  rw [hmat 1 2, hmat 2 1] at this
  norm_num at this

/-- C2 (amended): the list hit reports no-hit exactly when every member
misses; on a hit the returned `t` equals some member's reported hit `t` for
the query interval and is the least such; the hit flag and the returned
distance `t` agree across all permutations of the member list.  (The record
itself can differ between permutations when two members hit at the same
`t` — list order breaks that tie, as the counterexample shows.) -/
theorem list_hit_correct (L : List sphere) (r : ray) (I : interval)
    (rec₀ : hit_record) (hdir : r.direction ≠ ⟨0, 0, 0⟩) :
    ((hittable_list.hit L r I rec₀).1 = false ↔
      ∀ s ∈ L, (s.hit r I rec₀).1 = false) ∧
    (∀ rec : hit_record, hittable_list.hit L r I rec₀ = (true, rec) →
      (∃ s ∈ L, (s.hit r I rec₀).1 = true ∧ (s.hit r I rec₀).2.t = rec.t) ∧
      (∀ s ∈ L, (s.hit r I rec₀).1 = true → rec.t ≤ (s.hit r I rec₀).2.t)) ∧
    (∀ L' : List sphere, L.Perm L' →
      (hittable_list.hit L r I rec₀).1 = (hittable_list.hit L' r I rec₀).1 ∧
      ((hittable_list.hit L r I rec₀).1 = true →
        (hittable_list.hit L r I rec₀).2.t =
          (hittable_list.hit L' r I rec₀).2.t)) := by
  refine ⟨list_hit_none_iff L r I rec₀, ?_, ?_⟩
  · intro rec hrec
    exact list_hit_some_spec L r I rec₀ hdir rec hrec
  · intro L' hperm
    constructor
    · cases hbL : (hittable_list.hit L r I rec₀).1 with
      | false =>
          have hallL := (list_hit_none_iff L r I rec₀).1 hbL
          have hallL' : ∀ s ∈ L', (s.hit r I rec₀).1 = false := fun s hs =>
            hallL s (hperm.mem_iff.2 hs)
          exact ((list_hit_none_iff L' r I rec₀).2 hallL').symm
      | true =>
          cases hbL' : (hittable_list.hit L' r I rec₀).1 with
          | false =>
              have hallL' := (list_hit_none_iff L' r I rec₀).1 hbL'
              have hallL : ∀ s ∈ L, (s.hit r I rec₀).1 = false := fun s hs =>
                hallL' s (hperm.mem_iff.1 hs)
              have := (list_hit_none_iff L r I rec₀).2 hallL
              rw [hbL] at this
              exact absurd this (by simp)
          | true => rfl
    · intro htrue
      have hbL' : (hittable_list.hit L' r I rec₀).1 = true := by
        cases hbL' : (hittable_list.hit L' r I rec₀).1 with
        | false =>
            have hallL' := (list_hit_none_iff L' r I rec₀).1 hbL'
            have hallL : ∀ s ∈ L, (s.hit r I rec₀).1 = false := fun s hs =>
              hallL' s (hperm.mem_iff.1 hs)
            have := (list_hit_none_iff L r I rec₀).2 hallL
            rw [htrue] at this
            exact absurd this (by simp)
        | true => rfl
      have heqL : hittable_list.hit L r I rec₀ =
          (true, (hittable_list.hit L r I rec₀).2) := Prod.ext htrue rfl
      have heqL' : hittable_list.hit L' r I rec₀ =
          (true, (hittable_list.hit L' r I rec₀).2) := Prod.ext hbL' rfl
      obtain ⟨⟨o, ho, hfo, hto⟩, hminL⟩ :=
        list_hit_some_spec L r I rec₀ hdir _ heqL
      obtain ⟨⟨o', ho', hfo', hto'⟩, hminL'⟩ :=
        list_hit_some_spec L' r I rec₀ hdir _ heqL'
      have hle1 : (hittable_list.hit L r I rec₀).2.t ≤
          (hittable_list.hit L' r I rec₀).2.t := by
        have := hminL o' (hperm.mem_iff.2 ho') hfo'
        rw [hto'] at this
        exact this
      have hle2 : (hittable_list.hit L' r I rec₀).2.t ≤
          (hittable_list.hit L r I rec₀).2.t := by
        have := hminL' o (hperm.mem_iff.1 ho) hfo
        rw [hto] at this
        exact this
      exact le_antisymm hle1 hle2

/-- C2 witness: the two-sphere demo scene; both orders agree on the hit flag
and the hit distance. -/
theorem list_hit_correct_witness :
    (⟨0, 0, -1⟩ : vec3) ≠ ⟨0, 0, 0⟩ ∧
    ([⟨⟨0, 0, -2⟩, 1, 1⟩, ⟨⟨0, 0, -2⟩, 1, 2⟩] : List sphere).Perm
      [⟨⟨0, 0, -2⟩, 1, 2⟩, ⟨⟨0, 0, -2⟩, 1, 1⟩] ∧
    (hittable_list.hit [⟨⟨0, 0, -2⟩, 1, 1⟩, ⟨⟨0, 0, -2⟩, 1, 2⟩]
        ⟨⟨0, 0, 0⟩, ⟨0, 0, -1⟩⟩ ⟨((0.001 : ℝ) : EReal), ⊤⟩ default).1 =
      (hittable_list.hit [⟨⟨0, 0, -2⟩, 1, 2⟩, ⟨⟨0, 0, -2⟩, 1, 1⟩]
        ⟨⟨0, 0, 0⟩, ⟨0, 0, -1⟩⟩ ⟨((0.001 : ℝ) : EReal), ⊤⟩ default).1 ∧
    ((hittable_list.hit [⟨⟨0, 0, -2⟩, 1, 1⟩, ⟨⟨0, 0, -2⟩, 1, 2⟩]
        ⟨⟨0, 0, 0⟩, ⟨0, 0, -1⟩⟩ ⟨((0.001 : ℝ) : EReal), ⊤⟩ default).1 = true →
      (hittable_list.hit [⟨⟨0, 0, -2⟩, 1, 1⟩, ⟨⟨0, 0, -2⟩, 1, 2⟩]
          ⟨⟨0, 0, 0⟩, ⟨0, 0, -1⟩⟩ ⟨((0.001 : ℝ) : EReal), ⊤⟩ default).2.t =
        (hittable_list.hit [⟨⟨0, 0, -2⟩, 1, 2⟩, ⟨⟨0, 0, -2⟩, 1, 1⟩]
          ⟨⟨0, 0, 0⟩, ⟨0, 0, -1⟩⟩ ⟨((0.001 : ℝ) : EReal), ⊤⟩ default).2.t) := by
  have hperm : ([⟨⟨0, 0, -2⟩, 1, 1⟩, ⟨⟨0, 0, -2⟩, 1, 2⟩] : List sphere).Perm
      [⟨⟨0, 0, -2⟩, 1, 2⟩, ⟨⟨0, 0, -2⟩, 1, 1⟩] := List.Perm.swap _ _ _
  have h := (list_hit_correct [⟨⟨0, 0, -2⟩, 1, 1⟩, ⟨⟨0, 0, -2⟩, 1, 2⟩]
    ⟨⟨0, 0, 0⟩, ⟨0, 0, -1⟩⟩ ⟨((0.001 : ℝ) : EReal), ⊤⟩ default
    demo_dir_ne).2.2 _ hperm
  exact ⟨demo_dir_ne, hperm, h.1, h.2⟩
